import Mathlib

/-!
Verification of the WAV utilities of this repository
(src/golang/tools/tools.go): the PCM-to-WAV header synthesizer Pcm2Wav and
the WAV concatenator ConcatWavBytes.

Bytes are modelled as natural numbers (a real byte is < 256; readers mask
with % 256, writers only emit values < 256).  Go's int is modelled as the
unbounded Int together with explicit 64-bit wrapping (wrap64) at each
arithmetic step where the source can overflow, Go's uint32/uint16
conversions as Int.emod 2^32 / 2^16, and Go's truncating integer division
as Int.tdiv.
-/

/-- Little-endian value of a byte list (each entry masked to a byte). -/
def leNat : List Nat → Nat
  | [] => 0
  | b :: bs => b % 256 + 256 * leNat bs

/-- Little-endian 16-bit value of two bytes. -/
def le2 (a b : Nat) : Nat := a % 256 + 256 * (b % 256)

/-- Little-endian 32-bit value of four bytes. -/
def le4 (a b c d : Nat) : Nat :=
  a % 256 + 256 * (b % 256) + 65536 * (c % 256) + 16777216 * (d % 256)

/-- The two little-endian bytes of a 16-bit value, as written by
binary.LittleEndian.PutUint16. -/
def u16Bytes (v : Nat) : List Nat := [v % 256, v / 256 % 256]

/-- The four little-endian bytes of a 32-bit value, as written by
binary.LittleEndian.PutUint32. -/
def u32Bytes (v : Nat) : List Nat :=
  [v % 256, v / 256 % 256, v / 65536 % 256, v / 16777216 % 256]

/-- Reads the 16-bit little-endian field stored at byte offset off. -/
def readLE16 (bs : List Nat) (off : Nat) : Nat := leNat ((bs.drop off).take 2)

/-- Reads the 32-bit little-endian field stored at byte offset off. -/
def readLE32 (bs : List Nat) (off : Nat) : Nat := leNat ((bs.drop off).take 4)

/-- Wrapping of an integer into the two's-complement 64-bit range, the
behaviour of arithmetic on Go's int type. -/
def wrap64 (x : Int) : Int :=
  (x + 9223372036854775808) % 18446744073709551616 - 9223372036854775808

/-- The byte buffer built by Pcm2Wav (src/golang/tools/tools.go:88-127):
a 44-byte RIFF/WAVE header followed by the PCM payload.  Each header
field is written exactly as in the source: uint32/uint16 conversions
truncate (Int.emod 2^32 / 2^16, two's complement for negatives), the
byte-rate and block-align products wrap at 64 bits and use Go's
truncating division by 8. -/
def pcm2wavData (pcmBytes : List Nat) (sampleRate numChannels bitDepth : Int) : List Nat :=
  let fileSize := pcmBytes.length + 44
  [82, 73, 70, 70]
  ++ u32Bytes ((fileSize - 8) % 4294967296)
  ++ [87, 65, 86, 69]
  ++ [102, 109, 116, 32]
  ++ u32Bytes 16
  ++ u16Bytes 1
  ++ u16Bytes (numChannels % 65536).toNat
  ++ u32Bytes (sampleRate % 4294967296).toNat
  ++ u32Bytes ((wrap64 (wrap64 (sampleRate * numChannels) * bitDepth)).tdiv 8 % 4294967296).toNat
  ++ u16Bytes ((wrap64 (numChannels * bitDepth)).tdiv 8 % 65536).toNat
  ++ u16Bytes (bitDepth % 65536).toNat
  ++ [100, 97, 116, 97]
  ++ u32Bytes (pcmBytes.length % 4294967296)
  ++ pcmBytes

/-- Pcm2Wav (src/golang/tools/tools.go:88-127).  The source has a single
return path and always returns a nil error. -/
def Pcm2Wav (pcmBytes : List Nat) (sampleRate numChannels bitDepth : Int) :
    Except String (List Nat) :=
  Except.ok (pcm2wavData pcmBytes sampleRate numChannels bitDepth)

theorem pcm2wavData_length (pcm : List Nat) (sr nc bd : Int) :
    (pcm2wavData pcm sr nc bd).length = 44 + pcm.length := by
  simp [pcm2wavData, u16Bytes, u32Bytes]
  omega

theorem pcm2wavData_drop44 (pcm : List Nat) (sr nc bd : Int) :
    (pcm2wavData pcm sr nc bd).drop 44 = pcm := by
  simp [pcm2wavData, u16Bytes, u32Bytes]

/-- Claim C2: for every byte buffer and every triple of integer
parameters, Pcm2Wav returns no error and produces a buffer of length
exactly 44 + len(pcm) whose bytes from offset 44 onward are the payload
byte-for-byte. -/
theorem pcm2Wav_ok_length_payload (pcm : List Nat) (sr nc bd : Int) :
    Pcm2Wav pcm sr nc bd = Except.ok (pcm2wavData pcm sr nc bd) ∧
    (pcm2wavData pcm sr nc bd).length = 44 + pcm.length ∧
    (pcm2wavData pcm sr nc bd).drop 44 = pcm :=
  ⟨rfl, pcm2wavData_length pcm sr nc bd, pcm2wavData_drop44 pcm sr nc bd⟩

/-- Claim C9: Pcm2Wav on payload [01 02 03 04] with parameters
(16000, 1, 16) produces exactly 48 bytes with ChunkSize 40 at offset 4,
the ASCII tag WAVE at offset 8, NumChannels 1 at offset 22, SampleRate
16000 at offset 24, ByteRate 32000 at offset 28, BlockAlign 2 at offset
32, BitsPerSample 16 at offset 34, Subchunk2Size 4 at offset 40, and the
payload bytes 01 02 03 04 at offset 44. -/
theorem pcm2Wav_concrete_example :
    Pcm2Wav [1, 2, 3, 4] 16000 1 16 = Except.ok (pcm2wavData [1, 2, 3, 4] 16000 1 16) ∧
    (pcm2wavData [1, 2, 3, 4] 16000 1 16).length = 48 ∧
    readLE32 (pcm2wavData [1, 2, 3, 4] 16000 1 16) 4 = 40 ∧
    ((pcm2wavData [1, 2, 3, 4] 16000 1 16).drop 8).take 4 = [87, 65, 86, 69] ∧
    readLE16 (pcm2wavData [1, 2, 3, 4] 16000 1 16) 22 = 1 ∧
    readLE32 (pcm2wavData [1, 2, 3, 4] 16000 1 16) 24 = 16000 ∧
    readLE32 (pcm2wavData [1, 2, 3, 4] 16000 1 16) 28 = 32000 ∧
    readLE16 (pcm2wavData [1, 2, 3, 4] 16000 1 16) 32 = 2 ∧
    readLE16 (pcm2wavData [1, 2, 3, 4] 16000 1 16) 34 = 16 ∧
    readLE32 (pcm2wavData [1, 2, 3, 4] 16000 1 16) 40 = 4 ∧
    (pcm2wavData [1, 2, 3, 4] 16000 1 16).drop 44 = [1, 2, 3, 4] := by
  refine ⟨rfl, ?_, ?_, ?_, ?_, ?_, ?_, ?_, ?_, ?_, ?_⟩ <;> decide

theorem emod32_toNat_lt (y : Int) : (y % 4294967296).toNat < 4294967296 := by
  have h1 := Int.emod_nonneg y (by norm_num : (4294967296 : Int) ≠ 0)
  have h2 := Int.emod_lt_of_pos y (by norm_num : (0 : Int) < 4294967296)
  omega

theorem emod16_toNat_lt (y : Int) : (y % 65536).toNat < 65536 := by
  have h1 := Int.emod_nonneg y (by norm_num : (65536 : Int) ≠ 0)
  have h2 := Int.emod_lt_of_pos y (by norm_num : (0 : Int) < 65536)
  omega

set_option maxHeartbeats 4000000 in
/-- Claim C10: every header field of Pcm2Wav's output is written with
unsigned truncating conversions: NumChannels, BlockAlign and
BitsPerSample are stored modulo 2^16; ChunkSize, SampleRate, ByteRate and
Subchunk2Size modulo 2^32 (Int.emod, so negative parameters wrap to
large unsigned field values instead of being rejected). -/
theorem pcm2Wav_fields_truncated (pcm : List Nat) (sr nc bd : Int) :
    readLE16 (pcm2wavData pcm sr nc bd) 22 = (nc % 65536).toNat ∧
    readLE32 (pcm2wavData pcm sr nc bd) 24 = (sr % 4294967296).toNat ∧
    readLE16 (pcm2wavData pcm sr nc bd) 34 = (bd % 65536).toNat ∧
    readLE32 (pcm2wavData pcm sr nc bd) 4 = (pcm.length + 36) % 4294967296 ∧
    readLE32 (pcm2wavData pcm sr nc bd) 40 = pcm.length % 4294967296 ∧
    readLE32 (pcm2wavData pcm sr nc bd) 28
      = ((wrap64 (wrap64 (sr * nc) * bd)).tdiv 8 % 4294967296).toNat ∧
    readLE16 (pcm2wavData pcm sr nc bd) 32
      = ((wrap64 (nc * bd)).tdiv 8 % 65536).toNat ∧
    Pcm2Wav pcm sr nc bd = Except.ok (pcm2wavData pcm sr nc bd) := by
  have hnc := emod16_toNat_lt nc
  have hsr := emod32_toNat_lt sr
  have hbd := emod16_toNat_lt bd
  have hbr := emod32_toNat_lt ((wrap64 (wrap64 (sr * nc) * bd)).tdiv 8)
  have hba := emod16_toNat_lt ((wrap64 (nc * bd)).tdiv 8)
  refine ⟨?_, ?_, ?_, ?_, ?_, ?_, ?_, rfl⟩ <;>
    simp only [pcm2wavData, readLE16, readLE32, u16Bytes, u32Bytes, List.cons_append,
      List.nil_append, List.drop_succ_cons, List.drop_zero, List.take_succ_cons,
      List.take_zero, leNat] <;> omega

/-- Decoded PCM audio: format fields as read from a WAV header, plus the
raw payload bytes.  Modelled from the spec: the go-audio/wav decoder's
buffer (format + decoded frames) is not part of src/; the spec describes
it as the AudioFormat (sample rate, channel count, bit depth) together
with the ordered decoded samples (spec sections 3 and 4.1). -/
structure PCMBuffer where
  sampleRate : Nat
  numChannels : Nat
  bitDepth : Nat
  data : List Nat
deriving DecidableEq

/-- Modelled from the spec: a standard WAV parser (spec sections 3 and
4.2 give the exact 44-byte layout).  The go-audio/wav decoder used by
ConcatWavBytes is not part of src/.  The parser requires the RIFF, WAVE,
fmt and data tags, PCM audio format 1, and a non-zero bit depth that is
a whole number of bytes; it reads sample rate, channel count and bit
depth from the header and takes everything after byte 44 as payload. -/
def decodeWav : List Nat → Option PCMBuffer
  | r1 :: r2 :: r3 :: r4 :: _c1 :: _c2 :: _c3 :: _c4 ::
    w1 :: w2 :: w3 :: w4 :: f1 :: f2 :: f3 :: f4 ::
    _s1 :: _s2 :: _s3 :: _s4 :: a1 :: a2 :: n1 :: n2 ::
    sr1 :: sr2 :: sr3 :: sr4 :: _br1 :: _br2 :: _br3 :: _br4 ::
    _ba1 :: _ba2 :: bd1 :: bd2 :: d1 :: d2 :: d3 :: d4 ::
    _ds1 :: _ds2 :: _ds3 :: _ds4 :: payload =>
    if [r1, r2, r3, r4] = [82, 73, 70, 70] ∧ [w1, w2, w3, w4] = [87, 65, 86, 69] ∧
        [f1, f2, f3, f4] = [102, 109, 116, 32] ∧ [d1, d2, d3, d4] = [100, 97, 116, 97] ∧
        le2 a1 a2 = 1 ∧ le2 bd1 bd2 ≠ 0 ∧ le2 bd1 bd2 % 8 = 0 then
      some (PCMBuffer.mk (le4 sr1 sr2 sr3 sr4) (le2 n1 n2) (le2 bd1 bd2) payload)
    else none
  | _ => none

/-- The k little-endian bytes of a natural number. -/
def natToBytesLE : Nat → Nat → List Nat
  | 0, _ => []
  | k + 1, u => u % 256 :: natToBytesLE k (u / 256)

/-- The k little-endian bytes of a sample value, two's complement. -/
def intToBytes (k : Nat) (x : Int) : List Nat := natToBytesLE k (x % ((2 : Int) ^ (8 * k))).toNat

/-- Byte serialization of a sample list at k bytes per sample, as the
go-audio/wav encoder writes samples (modelled from the spec: raw
little-endian PCM payload, spec section 3). -/
def intsToBytes (k : Nat) (xs : List Int) : List Nat := (xs.map (intToBytes k)).flatten

/-- Two's-complement reading of a k-byte unsigned value. -/
def toSigned (k : Nat) (u : Nat) : Int :=
  if u < 2 ^ (8 * k) / 2 then (u : Int) else (u : Int) - 2 ^ (8 * k)

/-- Fuel-driven chunking of a byte list into k-byte little-endian
two's-complement samples (fuel bounds the recursion; it is the list
length at the entry point). -/
def bytesToIntsAux (k : Nat) : Nat → List Nat → List Int
  | 0, _ => []
  | fuel + 1, bs =>
    if k ≠ 0 ∧ k ≤ bs.length then
      toSigned k (leNat (bs.take k)) :: bytesToIntsAux k fuel (bs.drop k)
    else []

/-- Decoding of a payload into samples of k bytes each (modelled from
the spec: the decoded sample sequence of a WAV payload; a trailing
partial sample is dropped). -/
def bytesToInts (k : Nat) (bs : List Nat) : List Int := bytesToIntsAux k bs.length bs

/-- The decoded samples of a parsed WAV buffer. -/
def PCMBuffer.samples (b : PCMBuffer) : List Int := bytesToInts (b.bitDepth / 8) b.data

/-- Modelled from the spec: the 44-byte header the go-audio/wav encoder
writes (spec section 3 gives the container invariants: fileSize field =
totalBytes - 8, dataSize field = payloadBytes, byteRate = sampleRate *
numChannels * bitDepth/8, blockAlign = numChannels * bitDepth/8). -/
def wavHeader (sr nc bd dataLen : Nat) : List Nat :=
  [82, 73, 70, 70]
  ++ u32Bytes ((36 + dataLen) % 4294967296)
  ++ [87, 65, 86, 69]
  ++ [102, 109, 116, 32]
  ++ u32Bytes 16
  ++ u16Bytes 1
  ++ u16Bytes (nc % 65536)
  ++ u32Bytes (sr % 4294967296)
  ++ u32Bytes (sr * nc * bd / 8 % 4294967296)
  ++ u16Bytes (nc * bd / 8 % 65536)
  ++ u16Bytes (bd % 65536)
  ++ [100, 97, 116, 97]
  ++ u32Bytes (dataLen % 4294967296)

/-- Modelled from the spec: re-encoding decoded samples into a single
WAV byte buffer at the given format (spec section 4.1, re-encode step);
the go-audio/wav encoder used by ConcatWavBytes is not part of src/. -/
def encodeWav (sr nc bd : Nat) (samples : List Int) : List Nat :=
  wavHeader sr nc bd (intsToBytes (bd / 8) samples).length ++ intsToBytes (bd / 8) samples

/-- The error taxonomy of ConcatWavBytes: invalidFormat is the source's
"invalid WAV file" error, formatMismatch its parameter-mismatch error,
emptyInput its empty-params error (src/golang/tools/tools.go:28-52). -/
inductive ConcatError where
  | invalidFormat
  | formatMismatch
  | emptyInput
deriving DecidableEq

/-- The loop state of ConcatWavBytes: the reference format params (nil
until the first buffer), the accumulated frame buffers, and thebit
depth overwritten on every iteration (src/golang/tools/tools.go:19-21). -/
structure ConcatState where
  params : Option (Nat × Nat)
  frames : List (List Int)
  bitDepth : Nat
deriving DecidableEq

/-- One iteration of the ConcatWavBytes loop
(src/golang/tools/tools.go:23-48): decode the buffer, adopt its format
as reference when none is set, otherwise compare sample rate and channel
count; append the decoded samples and overwrite the bit depth. -/
def stepBuffer (st : ConcatState) (wavData : List Nat) : Except ConcatError ConcatState :=
  match decodeWav wavData with
  | none => Except.error ConcatError.invalidFormat
  | some buf =>
    match st.params with
    | none =>
      Except.ok (ConcatState.mk (some (buf.sampleRate, buf.numChannels))
        (st.frames ++ [buf.samples]) buf.bitDepth)
    | some p =>
      if p.1 ≠ buf.sampleRate ∨ p.2 ≠ buf.numChannels then
        Except.error ConcatError.formatMismatch
      else
        Except.ok (ConcatState.mk (some p) (st.frames ++ [buf.samples]) buf.bitDepth)

/-- The ConcatWavBytes loop over all input buffers, stopping at the
first error (src/golang/tools/tools.go:23-48). -/
def foldBuffers : ConcatState → List (List Nat) → Except ConcatError ConcatState
  | st, [] => Except.ok st
  | st, w :: ws =>
    match stepBuffer st w with
    | Except.error e => Except.error e
    | Except.ok st2 => foldBuffers st2 ws

/-- ConcatWavBytes (src/golang/tools/tools.go:18-82): decode and
validate every buffer in order, fail with emptyInput when no reference
format was established, otherwise re-encode all accumulated frames with
the reference sample rate and channel count and the last captured bit
depth. -/
def ConcatWavBytes (ws : List (List Nat)) : Except ConcatError (List Nat) :=
  match foldBuffers (ConcatState.mk none [] 0) ws with
  | Except.error e => Except.error e
  | Except.ok st =>
    match st.params with
    | none => Except.error ConcatError.emptyInput
    | some p => Except.ok (encodeWav p.1 p.2 st.bitDepth st.frames.flatten)

/-- The decoded samples of a buffer (empty when the buffer is not a
well-formed WAV). -/
def wavSamples (w : List Nat) : List Int :=
  match decodeWav w with
  | some b => b.samples
  | none => []

/-- The bit depth of a buffer (0 when the buffer is not a well-formed
WAV). -/
def wavBD (w : List Nat) : Nat :=
  match decodeWav w with
  | some b => b.bitDepth
  | none => 0

theorem natToBytesLE_length (k u : Nat) : (natToBytesLE k u).length = k := by
  induction k generalizing u with
  | zero => rfl
  | succ k ih => simp [natToBytesLE, ih]

theorem leNat_natToBytesLE (k u : Nat) : leNat (natToBytesLE k u) = u % 2 ^ (8 * k) := by
  induction k generalizing u with
  | zero => simp [natToBytesLE, leNat, Nat.mod_one]
  | succ k ih =>
    have hm : 2 ^ (8 * (k + 1)) = 256 * 2 ^ (8 * k) := by
      rw [show 8 * (k + 1) = 8 + 8 * k by ring, pow_add]
      norm_num
    rw [hm, Nat.mod_mul]
    simp only [natToBytesLE, leNat, ih]
    omega

theorem leNat_lt (l : List Nat) : leNat l < 2 ^ (8 * l.length) := by
  induction l with
  | nil => simp [leNat]
  | cons b bs ih =>
    have hm : 2 ^ (8 * (bs.length + 1)) = 256 * 2 ^ (8 * bs.length) := by
      rw [show 8 * (bs.length + 1) = 8 + 8 * bs.length by ring, pow_add]
      norm_num
    simp only [leNat, List.length_cons, hm]
    omega

theorem pow8_even (k : Nat) (hk : k ≠ 0) : 2 * (2 ^ (8 * k) / 2) = 2 ^ (8 * k) :=
  Nat.mul_div_cancel' (dvd_pow_self 2 (by omega : 8 * k ≠ 0))

theorem int_pow_cast (k : Nat) : ((2 : Int) ^ (8 * k)) = ((2 ^ (8 * k) : Nat) : Int) := by
  push_cast
  ring

theorem toSigned_range (k u : Nat) (hk : k ≠ 0) (hu : u < 2 ^ (8 * k)) :
    -((2 ^ (8 * k) / 2 : Nat) : Int) ≤ toSigned k u ∧
      toSigned k u < ((2 ^ (8 * k) / 2 : Nat) : Int) := by
  have he := pow8_even k hk
  unfold toSigned
  rw [int_pow_cast]
  split <;> rename_i h <;> constructor <;> omega

theorem intToBytes_leNat (k : Nat) (x : Int) (hk : k ≠ 0)
    (hlo : -((2 ^ (8 * k) / 2 : Nat) : Int) ≤ x)
    (hhi : x < ((2 ^ (8 * k) / 2 : Nat) : Int)) :
    toSigned k (leNat (intToBytes k x)) = x := by
  have he := pow8_even k hk
  have hP : (0 : Int) < (2 : Int) ^ (8 * k) := by positivity
  have e1 := Int.emod_nonneg x (ne_of_gt hP)
  have e2 := Int.emod_lt_of_pos x hP
  rw [int_pow_cast] at hP e1 e2
  have hu : leNat (intToBytes k x) = (x % ((2 : Int) ^ (8 * k))).toNat := by
    rw [intToBytes, leNat_natToBytesLE, int_pow_cast]
    exact Nat.mod_eq_of_lt (by omega)
  have hxe : x % ((2 : Int) ^ (8 * k)) = x ∨
      x % ((2 : Int) ^ (8 * k)) = x + (2 : Int) ^ (8 * k) := by
    rcases le_or_lt 0 x with hx | hx
    · left
      rw [int_pow_cast]
      exact Int.emod_eq_of_lt hx (by omega)
    · right
      have hadd : (x + (2 : Int) ^ (8 * k) * 1) % ((2 : Int) ^ (8 * k))
          = x % ((2 : Int) ^ (8 * k)) := Int.add_mul_emod_self_left x ((2 : Int) ^ (8 * k)) 1
      rw [← hadd, show x + (2 : Int) ^ (8 * k) * 1 = x + (2 : Int) ^ (8 * k) from by ring,
        int_pow_cast]
      exact Int.emod_eq_of_lt (by omega) (by omega)
  rw [int_pow_cast] at hxe
  unfold toSigned
  rw [int_pow_cast, hu, int_pow_cast]
  split <;> rename_i h <;> omega

theorem bytesToIntsAux_nil (k fuel : Nat) : bytesToIntsAux k fuel [] = [] := by
  cases fuel with
  | zero => rfl
  | succ f =>
    simp only [bytesToIntsAux]
    rw [if_neg]
    simp

theorem bytesToIntsAux_fuel (k : Nat) :
    ∀ fuel1 fuel2 bs, bs.length ≤ fuel1 → bs.length ≤ fuel2 →
      bytesToIntsAux k fuel1 bs = bytesToIntsAux k fuel2 bs := by
  intro fuel1
  induction fuel1 with
  | zero =>
    intro fuel2 bs h1 _
    have : bs = [] := List.length_eq_zero.mp (by omega)
    subst this
    rw [bytesToIntsAux_nil, bytesToIntsAux_nil]
  | succ f1 ih =>
    intro fuel2 bs h1 h2
    by_cases hc : k ≠ 0 ∧ k ≤ bs.length
    · have hlen : 1 ≤ bs.length := by omega
      cases fuel2 with
      | zero => omega
      | succ f2 =>
        simp only [bytesToIntsAux, if_pos hc]
        have hdrop : (bs.drop k).length ≤ f1 := by
          simp only [List.length_drop]
          omega
        have hdrop2 : (bs.drop k).length ≤ f2 := by
          simp only [List.length_drop]
          omega
        rw [ih f2 (bs.drop k) hdrop hdrop2]
    · cases fuel2 with
      | zero =>
        have : bs = [] := List.length_eq_zero.mp (by omega)
        subst this
        rw [bytesToIntsAux_nil, bytesToIntsAux_nil]
      | succ f2 => simp only [bytesToIntsAux, if_neg hc]

theorem bytesToInts_chunk (k : Nat) (hk : k ≠ 0) (cl rest : List Nat)
    (hcl : cl.length = k) :
    bytesToInts k (cl ++ rest) = toSigned k (leNat cl) :: bytesToInts k rest := by
  have hlen : (cl ++ rest).length = k + rest.length := by simp [hcl]
  obtain ⟨f, hf⟩ : ∃ f, (cl ++ rest).length = f + 1 := ⟨k + rest.length - 1, by omega⟩
  rw [bytesToInts, hf]
  simp only [bytesToIntsAux]
  rw [if_pos ⟨hk, by omega⟩]
  rw [List.take_left' hcl, List.drop_left' hcl]
  rw [bytesToIntsAux_fuel k f rest.length rest (by omega) (le_refl _)]
  rfl

theorem bytesToInts_range (k : Nat) :
    ∀ fuel bs x, x ∈ bytesToIntsAux k fuel bs →
      -((2 ^ (8 * k) / 2 : Nat) : Int) ≤ x ∧ x < ((2 ^ (8 * k) / 2 : Nat) : Int) := by
  intro fuel
  induction fuel with
  | zero =>
    intro bs x hx
    simp [bytesToIntsAux] at hx
  | succ f ih =>
    intro bs x hx
    simp only [bytesToIntsAux] at hx
    by_cases hc : k ≠ 0 ∧ k ≤ bs.length
    · rw [if_pos hc] at hx
      rcases List.mem_cons.mp hx with h | h
      · subst h
        apply toSigned_range k _ hc.1
        calc leNat (bs.take k) < 2 ^ (8 * (bs.take k).length) := leNat_lt _
          _ ≤ 2 ^ (8 * k) := Nat.pow_le_pow_right (by omega) (by simp only [List.length_take]; omega)
      · exact ih _ x h
    · rw [if_neg hc] at hx
      simp at hx

theorem bytesToInts_intsToBytes (k : Nat) (hk : k ≠ 0) (xs : List Int)
    (hx : ∀ x ∈ xs, -((2 ^ (8 * k) / 2 : Nat) : Int) ≤ x ∧ x < ((2 ^ (8 * k) / 2 : Nat) : Int)) :
    bytesToInts k (intsToBytes k xs) = xs := by
  induction xs with
  | nil => simp [intsToBytes, bytesToInts, bytesToIntsAux_nil]
  | cons x xs ih =>
    have hcl : (intToBytes k x).length = k := by
      rw [intToBytes, natToBytesLE_length]
    have hstep : intsToBytes k (x :: xs) = intToBytes k x ++ intsToBytes k xs := by
      simp [intsToBytes]
    rw [hstep, bytesToInts_chunk k hk _ _ hcl]
    have hx0 := hx x (List.mem_cons_self x xs)
    rw [intToBytes_leNat k x hk hx0.1 hx0.2]
    rw [ih fun y hy => hx y (List.mem_cons_of_mem x hy)]

theorem decodeWav_bounds (w : List Nat) (b : PCMBuffer) (h : decodeWav w = some b) :
    b.sampleRate < 4294967296 ∧ b.numChannels < 65536 ∧ b.bitDepth < 65536 ∧
      b.bitDepth ≠ 0 ∧ b.bitDepth % 8 = 0 := by
  unfold decodeWav at h
  split at h
  · split at h
    · rename_i hc
      obtain ⟨h1, h2, h3, h4, h5, h6, h7⟩ := hc
      cases h
      refine ⟨?_, ?_, ?_, h6, h7⟩ <;> simp only [le4, le2] <;> omega
    · exact absurd h (by simp)
  · exact absurd h (by simp)

theorem decodeWav_encodeWav (sr nc bd : Nat) (xs : List Int)
    (hsr : sr < 4294967296) (hnc : nc < 65536) (hbd : bd < 65536)
    (hbd0 : bd ≠ 0) (hbd8 : bd % 8 = 0) :
    decodeWav (encodeWav sr nc bd xs) =
      some (PCMBuffer.mk sr nc bd (intsToBytes (bd / 8) xs)) := by
  simp only [encodeWav, wavHeader, u16Bytes, u32Bytes, List.cons_append, List.nil_append]
  simp only [decodeWav]
  rw [if_pos ⟨trivial, trivial, trivial, trivial, by decide,
    by simp only [le2]; omega, by simp only [le2]; omega⟩]
  simp only [Option.some.injEq, PCMBuffer.mk.injEq]
  refine ⟨?_, ?_, ?_, trivial⟩ <;> simp only [le4, le2] <;> omega

theorem foldBuffers_append (st : ConcatState) (l1 l2 : List (List Nat)) :
    foldBuffers st (l1 ++ l2) =
      match foldBuffers st l1 with
      | Except.error e => Except.error e
      | Except.ok st2 => foldBuffers st2 l2 := by
  induction l1 generalizing st with
  | nil => rfl
  | cons w ws ih =>
    simp only [List.cons_append, foldBuffers]
    cases stepBuffer st w with
    | error e => rfl
    | ok st2 => exact ih st2

theorem foldBuffers_ok (sr nc : Nat) (ws : List (List Nat))
    (h : ∀ w ∈ ws, ((decodeWav w).map fun b => (b.sampleRate, b.numChannels)) = some (sr, nc)) :
    ∀ (fr : List (List Int)) (bd : Nat),
      foldBuffers (ConcatState.mk (some (sr, nc)) fr bd) ws =
        Except.ok (ConcatState.mk (some (sr, nc)) (fr ++ ws.map wavSamples)
          (ws.foldl (fun _ w => wavBD w) bd)) := by
  induction ws with
  | nil => intro fr bd; simp [foldBuffers]
  | cons w ws ih =>
    intro fr bd
    have hw := h w (List.mem_cons_self w ws)
    rw [Option.map_eq_some'] at hw
    obtain ⟨b, hb, hfmt⟩ := hw
    injection hfmt with hsr hnc2
    have hsamp : wavSamples w = b.samples := by simp [wavSamples, hb]
    have hbd : wavBD w = b.bitDepth := by simp [wavBD, hb]
    simp only [foldBuffers, stepBuffer, hb]
    rw [if_neg (by omega)]
    show foldBuffers (ConcatState.mk (some (sr, nc)) (fr ++ [b.samples]) b.bitDepth) ws = _
    rw [ih (fun x hx => h x (List.mem_cons_of_mem w hx)) (fr ++ [b.samples]) b.bitDepth]
    simp [hsamp, hbd, List.append_assoc]

theorem foldl_overwrite (f : List Nat → Nat) :
    ∀ (l : List (List Nat)) (d : List Nat),
      l.foldl (fun _ w => f w) (f d) = f (l.getLastD d)
  | [], _ => by simp
  | a :: l, d => by
    simp only [List.foldl_cons, List.getLastD_cons]
    exact foldl_overwrite f l a

theorem getLastD_self_or_mem :
    ∀ (l : List (List Nat)) (d : List Nat), l.getLastD d = d ∨ l.getLastD d ∈ l
  | [], _ => Or.inl rfl
  | a :: l, d => by
    rw [List.getLastD_cons]
    rcases getLastD_self_or_mem l a with h | h
    · refine Or.inr ?_
      rw [h]
      exact List.mem_cons_self a l
    · exact Or.inr (List.mem_cons_of_mem a h)

theorem concatWavBytes_eq (w0 : List Nat) (ws : List (List Nat)) (b0 : PCMBuffer)
    (h0 : decodeWav w0 = some b0)
    (h : ∀ w ∈ ws, ((decodeWav w).map fun b => (b.sampleRate, b.numChannels))
          = some (b0.sampleRate, b0.numChannels)) :
    ConcatWavBytes (w0 :: ws) =
      Except.ok (encodeWav b0.sampleRate b0.numChannels
        (ws.foldl (fun _ w => wavBD w) b0.bitDepth)
        ((w0 :: ws).map wavSamples).flatten) := by
  have hsamp : wavSamples w0 = b0.samples := by simp [wavSamples, h0]
  rw [ConcatWavBytes]
  simp only [foldBuffers, stepBuffer, h0, List.nil_append]
  rw [foldBuffers_ok b0.sampleRate b0.numChannels ws h [b0.samples] b0.bitDepth]
  show Except.ok (encodeWav b0.sampleRate b0.numChannels
      (ws.foldl (fun _ w => wavBD w) b0.bitDepth)
      (([b0.samples] ++ ws.map wavSamples).flatten)) = _
  simp [hsamp]

/-- A 16 kHz mono 16-bit WAV with samples 5 and -3. -/
def wavA : List Nat := encodeWav 16000 1 16 [5, -3]

/-- A 16 kHz mono 16-bit WAV with sample 7. -/
def wavB : List Nat := encodeWav 16000 1 16 [7]

/-- An 8 kHz mono 16-bit WAV (sample rate differs from wavA). -/
def wavC : List Nat := encodeWav 8000 1 16 [1]

/-- A 16 kHz mono 8-bit WAV (bit depth differs from wavA). -/
def wav8 : List Nat := encodeWav 16000 1 8 [1]

/-- A 16 kHz mono 16-bit WAV whose sample 1000 does not fit in 8 bits. -/
def wav16big : List Nat := encodeWav 16000 1 16 [1000]

/-- A buffer that is not a WAV file at all. -/
def wavBad : List Nat := [1, 2, 3]

/-- Claim C6: ConcatWavBytes on the empty list fails with the emptyInput
error: the loop never runs, the reference format is never set, and no
buffer is produced. -/
theorem concatWav_empty_fails :
    ConcatWavBytes [] = Except.error ConcatError.emptyInput := rfl

theorem wavSamples_mem_range (w : List Nat) (b : PCMBuffer) (hb : decodeWav w = some b)
    (x : Int) (hx : x ∈ wavSamples w) :
    -((2 ^ (8 * (b.bitDepth / 8)) / 2 : Nat) : Int) ≤ x ∧
      x < ((2 ^ (8 * (b.bitDepth / 8)) / 2 : Nat) : Int) := by
  have hsamp : wavSamples w = bytesToIntsAux (b.bitDepth / 8) b.data.length b.data := by
    simp [wavSamples, hb, PCMBuffer.samples, bytesToInts]
  rw [hsamp] at hx
  exact bytesToInts_range (b.bitDepth / 8) b.data.length b.data x hx

/-- Claim C1 (amended: the inputs must also share the bit depth): for a
non-empty list of well-formed WAV buffers of one common sample rate,
channel count and bit depth, ConcatWavBytes succeeds and its output
decodes to exactly the concatenation of the inputs' samples, whose
length is the sum of the inputs' sample counts. -/
theorem concatWav_same_format_roundtrip (w0 : List Nat) (ws : List (List Nat))
    (sr nc bd : Nat)
    (h : ∀ w ∈ w0 :: ws, ((decodeWav w).map fun b => (b.sampleRate, b.numChannels, b.bitDepth))
          = some (sr, nc, bd)) :
    ∃ out b, ConcatWavBytes (w0 :: ws) = Except.ok out ∧ decodeWav out = some b ∧
      b.samples = ((w0 :: ws).map wavSamples).flatten ∧
      b.samples.length = ((w0 :: ws).map fun w => (wavSamples w).length).sum := by
  have h0 := h w0 (List.mem_cons_self w0 ws)
  rw [Option.map_eq_some'] at h0
  obtain ⟨b0, hb0, hfmt⟩ := h0
  injection hfmt with hsr hrest
  injection hrest with hnc hbd
  have hbounds := decodeWav_bounds w0 b0 hb0
  have h2 : ∀ w ∈ ws, ((decodeWav w).map fun b => (b.sampleRate, b.numChannels))
      = some (b0.sampleRate, b0.numChannels) := by
    intro w hw
    have hw2 := h w (List.mem_cons_of_mem w0 hw)
    rw [Option.map_eq_some'] at hw2 ⊢
    obtain ⟨b, hb, hf⟩ := hw2
    injection hf with e1 erest
    injection erest with e2 e3
    exact ⟨b, hb, by rw [e1, e2, hsr, hnc]⟩
  have hbdall : ∀ w ∈ w0 :: ws, wavBD w = bd := by
    intro w hw
    have hw2 := h w hw
    rw [Option.map_eq_some'] at hw2
    obtain ⟨b, hb, hf⟩ := hw2
    injection hf with e1 erest
    injection erest with e2 e3
    simp [wavBD, hb, e3]
  have hlast : ws.foldl (fun _ w => wavBD w) b0.bitDepth = bd := by
    have hb0bd : b0.bitDepth = wavBD w0 := by simp [wavBD, hb0]
    rw [hb0bd, foldl_overwrite]
    rcases getLastD_self_or_mem ws w0 with hd | hd
    · rw [hd]
      exact hbdall w0 (List.mem_cons_self w0 ws)
    · exact hbdall _ (List.mem_cons_of_mem w0 hd)
  rw [concatWavBytes_eq w0 ws b0 hb0 h2]
  rw [hsr, hnc, hlast]
  have hk0 : bd / 8 ≠ 0 := by omega
  have hdec := decodeWav_encodeWav sr nc bd (((w0 :: ws).map wavSamples).flatten)
    (by omega) (by omega) (by omega) (by omega) (by omega)
  refine ⟨_, _, rfl, hdec, ?_, ?_⟩
  · show bytesToInts (bd / 8) (intsToBytes (bd / 8) (((w0 :: ws).map wavSamples).flatten))
      = ((w0 :: ws).map wavSamples).flatten
    apply bytesToInts_intsToBytes (bd / 8) hk0
    intro x hx
    rw [List.mem_flatten] at hx
    obtain ⟨l, hl, hxl⟩ := hx
    rw [List.mem_map] at hl
    obtain ⟨w, hw, rfl⟩ := hl
    have hw2 := h w hw
    rw [Option.map_eq_some'] at hw2
    obtain ⟨b, hb, hf⟩ := hw2
    injection hf with e1 erest
    injection erest with e2 e3
    have := wavSamples_mem_range w b hb x hxl
    rw [e3] at this
    exact this
  · show (bytesToInts (bd / 8) (intsToBytes (bd / 8) (((w0 :: ws).map wavSamples).flatten))).length
      = ((w0 :: ws).map fun w => (wavSamples w).length).sum
    rw [show bytesToInts (bd / 8) (intsToBytes (bd / 8) (((w0 :: ws).map wavSamples).flatten))
        = ((w0 :: ws).map wavSamples).flatten from by
      apply bytesToInts_intsToBytes (bd / 8) hk0
      intro x hx
      rw [List.mem_flatten] at hx
      obtain ⟨l, hl, hxl⟩ := hx
      rw [List.mem_map] at hl
      obtain ⟨w, hw, rfl⟩ := hl
      have hw2 := h w hw
      rw [Option.map_eq_some'] at hw2
      obtain ⟨b, hb, hf⟩ := hw2
      injection hf with e1 erest
      injection erest with e2 e3
      have := wavSamples_mem_range w b hb x hxl
      rw [e3] at this
      exact this]
    rw [List.length_flatten, List.map_map]
    rfl

/-- Witness for claim C1 at two concrete 16 kHz mono 16-bit inputs. -/
theorem concatWav_same_format_roundtrip_witness :
    (∀ w ∈ [wavA, wavB],
      ((decodeWav w).map fun b => (b.sampleRate, b.numChannels, b.bitDepth))
        = some (16000, 1, 16)) ∧
    (∃ out b, ConcatWavBytes [wavA, wavB] = Except.ok out ∧ decodeWav out = some b ∧
      b.samples = ([wavA, wavB].map wavSamples).flatten ∧
      b.samples.length = ([wavA, wavB].map fun w => (wavSamples w).length).sum) :=
  ⟨by decide, concatWav_same_format_roundtrip wavA [wavB] 16000 1 16 (by decide)⟩

/-- Counterexample to claim C1 as stated: wav16big and wav8 share sample
rate 16000 and channel count 1 (only the bit depths differ, which the
claim does not constrain), the call succeeds, but the output decodes to
samples [-24, 1] instead of the inputs' concatenated samples [1000, 1]:
the 16-bit sample 1000 is truncated when re-encoded at the last input's
8-bit depth. -/
theorem concatWav_roundtrip_counterexample :
    ((decodeWav wav16big).map fun b => (b.sampleRate, b.numChannels)) = some (16000, 1) ∧
    ((decodeWav wav8).map fun b => (b.sampleRate, b.numChannels)) = some (16000, 1) ∧
    (ConcatWavBytes [wav16big, wav8]).toOption.map wavSamples = some [-24, 1] ∧
    wavSamples wav16big ++ wavSamples wav8 = [1000, 1] ∧
    ([-24, 1] : List Int) ≠ [1000, 1] := by
  refine ⟨by decide, by decide, by decide, by decide, by decide⟩

/-- Claim C3: for well-formed inputs sharing the first buffer's sample
rate and channel count (bit depths unconstrained), ConcatWavBytes
succeeds and the output header carries the first input's sample rate and
channel count but the bit depth of the last processed input. -/
theorem concatWav_header_formats (w0 : List Nat) (ws : List (List Nat)) (b0 : PCMBuffer)
    (h0 : decodeWav w0 = some b0)
    (h : ∀ w ∈ ws, ((decodeWav w).map fun b => (b.sampleRate, b.numChannels))
          = some (b0.sampleRate, b0.numChannels)) :
    ∃ out b, ConcatWavBytes (w0 :: ws) = Except.ok out ∧ decodeWav out = some b ∧
      b.sampleRate = b0.sampleRate ∧ b.numChannels = b0.numChannels ∧
      b.bitDepth = wavBD ((w0 :: ws).getLastD []) := by
  have hb0bd : b0.bitDepth = wavBD w0 := by simp [wavBD, h0]
  have hlast : ws.foldl (fun _ w => wavBD w) b0.bitDepth = wavBD (ws.getLastD w0) := by
    rw [hb0bd, foldl_overwrite]
  obtain ⟨bl, hbl⟩ : ∃ bl, decodeWav (ws.getLastD w0) = some bl := by
    rcases getLastD_self_or_mem ws w0 with hd | hd
    · exact ⟨b0, by rw [hd]; exact h0⟩
    · have hw2 := h _ hd
      rw [Option.map_eq_some'] at hw2
      obtain ⟨b, hb, _⟩ := hw2
      exact ⟨b, hb⟩
  have hblb := decodeWav_bounds _ bl hbl
  have hwbd : wavBD (ws.getLastD w0) = bl.bitDepth := by
    unfold wavBD
    rw [hbl]
  have hb0b := decodeWav_bounds w0 b0 h0
  rw [concatWavBytes_eq w0 ws b0 h0 h, hlast, hwbd]
  have hdec := decodeWav_encodeWav b0.sampleRate b0.numChannels bl.bitDepth
    (((w0 :: ws).map wavSamples).flatten)
    hb0b.1 hb0b.2.1 hblb.2.2.1 hblb.2.2.2.1 hblb.2.2.2.2
  refine ⟨_, _, rfl, hdec, rfl, rfl, ?_⟩
  rw [List.getLastD_cons, hwbd]

/-- Witness for claim C3 at concrete inputs of differing bit depths:
wavA is 16-bit, wav8 is 8-bit, the call succeeds, and the output's bit
depth is wav8's. -/
theorem concatWav_header_formats_witness :
    decodeWav wavA = some (PCMBuffer.mk 16000 1 16 [5, 0, 253, 255]) ∧
    (∀ w ∈ [wav8], ((decodeWav w).map fun b => (b.sampleRate, b.numChannels))
      = some ((PCMBuffer.mk 16000 1 16 [5, 0, 253, 255]).sampleRate,
              (PCMBuffer.mk 16000 1 16 [5, 0, 253, 255]).numChannels)) ∧
    wavBD ([wavA, wav8].getLastD []) = 8 ∧
    (∃ out b, ConcatWavBytes [wavA, wav8] = Except.ok out ∧ decodeWav out = some b ∧
      b.sampleRate = (PCMBuffer.mk 16000 1 16 [5, 0, 253, 255]).sampleRate ∧
      b.numChannels = (PCMBuffer.mk 16000 1 16 [5, 0, 253, 255]).numChannels ∧
      b.bitDepth = wavBD ([wavA, wav8].getLastD [])) :=
  ⟨by decide, by decide, by decide,
    concatWav_header_formats wavA [wav8] (PCMBuffer.mk 16000 1 16 [5, 0, 253, 255])
      (by decide) (by decide)⟩

theorem concatWavBytes_error (ws : List (List Nat)) (e : ConcatError)
    (h : foldBuffers (ConcatState.mk none [] 0) ws = Except.error e) :
    ConcatWavBytes ws = Except.error e := by
  rw [ConcatWavBytes, h]

/-- Claim C5 (amended: the first buffer and the buffers before the first
mismatching one must themselves be well-formed WAVs matching the first
buffer's format): when a well-formed buffer whose sample rate or channel
count differs from the reference is reached, ConcatWavBytes fails with
the formatMismatch error. -/
theorem concatWav_mismatch_fails (w0 : List Nat) (pre : List (List Nat)) (m : List Nat)
    (suf : List (List Nat)) (b0 bm : PCMBuffer)
    (h0 : decodeWav w0 = some b0)
    (hpre : ∀ w ∈ pre, ((decodeWav w).map fun b => (b.sampleRate, b.numChannels))
          = some (b0.sampleRate, b0.numChannels))
    (hm : decodeWav m = some bm)
    (hdiff : bm.sampleRate ≠ b0.sampleRate ∨ bm.numChannels ≠ b0.numChannels) :
    ConcatWavBytes (w0 :: (pre ++ m :: suf)) = Except.error ConcatError.formatMismatch := by
  apply concatWavBytes_error
  simp only [foldBuffers, stepBuffer, h0, List.nil_append]
  show foldBuffers (ConcatState.mk (some (b0.sampleRate, b0.numChannels))
    [b0.samples] b0.bitDepth) (pre ++ m :: suf) = _
  rw [foldBuffers_append]
  rw [foldBuffers_ok b0.sampleRate b0.numChannels pre hpre [b0.samples] b0.bitDepth]
  show foldBuffers (ConcatState.mk (some (b0.sampleRate, b0.numChannels))
    ([b0.samples] ++ pre.map wavSamples)
    (pre.foldl (fun _ w => wavBD w) b0.bitDepth)) (m :: suf) = _
  simp only [foldBuffers, stepBuffer, hm]
  have hdiff2 : b0.sampleRate ≠ bm.sampleRate ∨ b0.numChannels ≠ bm.numChannels := by
    rcases hdiff with hd | hd
    · exact Or.inl (Ne.symm hd)
    · exact Or.inr (Ne.symm hd)
  rw [if_pos hdiff2]

/-- Witness for claim C5: wavA at 16000 Hz followed directly by wavC at
8000 Hz fails with formatMismatch. -/
theorem concatWav_mismatch_fails_witness :
    decodeWav wavA = some (PCMBuffer.mk 16000 1 16 [5, 0, 253, 255]) ∧
    decodeWav wavC = some (PCMBuffer.mk 8000 1 16 [1, 0]) ∧
    ((PCMBuffer.mk 8000 1 16 [1, 0]).sampleRate
        ≠ (PCMBuffer.mk 16000 1 16 [5, 0, 253, 255]).sampleRate ∨
      (PCMBuffer.mk 8000 1 16 [1, 0]).numChannels
        ≠ (PCMBuffer.mk 16000 1 16 [5, 0, 253, 255]).numChannels) ∧
    ConcatWavBytes [wavA, wavC] = Except.error ConcatError.formatMismatch :=
  ⟨by decide, by decide, by decide,
    concatWav_mismatch_fails wavA [] wavC [] (PCMBuffer.mk 16000 1 16 [5, 0, 253, 255])
      (PCMBuffer.mk 8000 1 16 [1, 0]) (by decide) (by decide) (by decide) (by decide)⟩

/-- Counterexample to claim C5 as stated: in [wavA, wavBad, wavC] the
buffer wavC after the first is a well-formed WAV whose sample rate 8000
differs from the first buffer's 16000, yet the call fails with
invalidFormat (at the non-WAV buffer wavBad reached earlier), not with
formatMismatch. -/
theorem concatWav_mismatch_counterexample :
    ((decodeWav wavA).map fun b => (b.sampleRate, b.numChannels)) = some (16000, 1) ∧
    ((decodeWav wavC).map fun b => (b.sampleRate, b.numChannels)) = some (8000, 1) ∧
    ConcatWavBytes [wavA, wavBad, wavC] = Except.error ConcatError.invalidFormat ∧
    ConcatError.invalidFormat ≠ ConcatError.formatMismatch :=
  ⟨by decide, by decide, rfl, by decide⟩

/-- Claim C7 (amended: the buffers before the first invalid one must be
well-formed WAVs sharing one format): ConcatWavBytes fails with the
invalidFormat error at the first buffer that is not a recognized WAV,
and the buffers after it are never examined (the result is the same for
every suffix). -/
theorem concatWav_invalid_fails (pre : List (List Nat)) (bad : List Nat) (sr nc : Nat)
    (hpre : ∀ w ∈ pre, ((decodeWav w).map fun b => (b.sampleRate, b.numChannels))
          = some (sr, nc))
    (hbad : decodeWav bad = none) :
    ∀ suf, ConcatWavBytes (pre ++ bad :: suf) = Except.error ConcatError.invalidFormat := by
  intro suf
  apply concatWavBytes_error
  cases pre with
  | nil => simp only [List.nil_append, foldBuffers, stepBuffer, hbad]
  | cons p ps =>
    have hp := hpre p (List.mem_cons_self p ps)
    rw [Option.map_eq_some'] at hp
    obtain ⟨bp, hbp, hf⟩ := hp
    injection hf with e1 e2
    have hps : ∀ w ∈ ps, ((decodeWav w).map fun b => (b.sampleRate, b.numChannels))
        = some (bp.sampleRate, bp.numChannels) := by
      rw [e1, e2]
      exact fun w hw => hpre w (List.mem_cons_of_mem p hw)
    simp only [List.cons_append, foldBuffers, stepBuffer, hbp, List.nil_append]
    show foldBuffers (ConcatState.mk (some (bp.sampleRate, bp.numChannels))
      [bp.samples] bp.bitDepth) (ps ++ bad :: suf) = _
    rw [foldBuffers_append]
    rw [foldBuffers_ok bp.sampleRate bp.numChannels ps hps [bp.samples] bp.bitDepth]
    show foldBuffers (ConcatState.mk (some (bp.sampleRate, bp.numChannels))
      ([bp.samples] ++ ps.map wavSamples)
      (ps.foldl (fun _ w => wavBD w) bp.bitDepth)) (bad :: suf) = _
    simp only [foldBuffers, stepBuffer, hbad]

/-- Witness for claim C7: with the well-formed wavA before it, the
non-WAV buffer wavBad makes the call fail with invalidFormat, for the
concrete suffix [wavB] as well. -/
theorem concatWav_invalid_fails_witness :
    (∀ w ∈ [wavA], ((decodeWav w).map fun b => (b.sampleRate, b.numChannels))
      = some (16000, 1)) ∧
    decodeWav wavBad = none ∧
    ConcatWavBytes [wavA, wavBad, wavB] = Except.error ConcatError.invalidFormat :=
  ⟨by decide, by decide,
    concatWav_invalid_fails [wavA] wavBad 16000 1 (by decide) (by decide) [wavB]⟩

/-- Counterexample to claim C7 as stated: [wavA, wavC, wavBad] contains
the non-WAV buffer wavBad, yet the call fails with formatMismatch (at
the mismatching wavC reached earlier), not with invalidFormat. -/
theorem concatWav_invalid_counterexample :
    decodeWav wavBad = none ∧
    ConcatWavBytes [wavA, wavC, wavBad] = Except.error ConcatError.formatMismatch ∧
    ConcatError.formatMismatch ≠ ConcatError.invalidFormat :=
  ⟨by decide, rfl, by decide⟩

/-- Claim C8: for any payload and valid format parameters (values
representable in their header fields, a positive byte-aligned bit
depth), parsing the buffer produced by Pcm2Wav recovers exactly the
sample rate, channel count, bit depth and payload that were passed in. -/
theorem pcm2Wav_decode_roundtrip (pcm : List Nat) (sr nc bd : Int)
    (hsr0 : 0 ≤ sr) (hsr : sr < 4294967296) (hnc0 : 0 ≤ nc) (hnc : nc < 65536)
    (hbd0 : 0 < bd) (hbd : bd < 65536) (hbd8 : bd % 8 = 0) :
    ∃ out, Pcm2Wav pcm sr nc bd = Except.ok out ∧
      decodeWav out = some (PCMBuffer.mk sr.toNat nc.toNat bd.toNat pcm) ∧
      (sr.toNat : Int) = sr ∧ (nc.toNat : Int) = nc ∧ (bd.toNat : Int) = bd := by
  refine ⟨_, rfl, ?_, by omega, by omega, by omega⟩
  simp only [pcm2wavData, u16Bytes, u32Bytes, List.cons_append, List.nil_append]
  simp only [decodeWav]
  rw [if_pos ⟨trivial, trivial, trivial, trivial, by decide,
    by simp only [le2]; omega, by simp only [le2]; omega⟩]
  simp only [Option.some.injEq, PCMBuffer.mk.injEq]
  refine ⟨?_, ?_, ?_, trivial⟩ <;> simp only [le4, le2] <;> omega

/-- Witness for claim C8 at the concrete payload [1, 2, 3, 4] with
parameters (16000, 1, 16). -/
theorem pcm2Wav_decode_roundtrip_witness :
    ((0 : Int) ≤ 16000 ∧ (16000 : Int) < 4294967296 ∧ (0 : Int) ≤ 1 ∧ (1 : Int) < 65536 ∧
      (0 : Int) < 16 ∧ (16 : Int) < 65536 ∧ (16 : Int) % 8 = 0) ∧
    (∃ out, Pcm2Wav [1, 2, 3, 4] 16000 1 16 = Except.ok out ∧
      decodeWav out = some (PCMBuffer.mk (16000 : Int).toNat (1 : Int).toNat
        (16 : Int).toNat [1, 2, 3, 4]) ∧
      ((16000 : Int).toNat : Int) = 16000 ∧ ((1 : Int).toNat : Int) = 1 ∧
      ((16 : Int).toNat : Int) = 16) :=
  ⟨by decide,
    pcm2Wav_decode_roundtrip [1, 2, 3, 4] 16000 1 16 (by decide) (by decide) (by decide)
      (by decide) (by decide) (by decide) (by decide)⟩

/-- A minimal filesystem state: the names (numbered) of the temporary
files that exist, and the next fresh name os.CreateTemp would pick. -/
structure FS where
  files : List Nat
  fresh : Nat
deriving DecidableEq

/-- ConcatWavBytes together with its filesystem effects
(src/golang/tools/tools.go:54-59): decode errors happen before
os.CreateTemp, so they leave the filesystem unchanged; on the success
path os.CreateTemp creates a fresh temporary file, and the deferred
tempFile.Close() only closes the handle - no os.Remove is ever called,
so the created file is still present when the function returns. -/
def ConcatWavBytesFS (ws : List (List Nat)) (fs : FS) :
    Except ConcatError (List Nat) × FS :=
  match foldBuffers (ConcatState.mk none [] 0) ws with
  | Except.error e => (Except.error e, fs)
  | Except.ok st =>
    match st.params with
    | none => (Except.error ConcatError.emptyInput, fs)
    | some p =>
      (Except.ok (encodeWav p.1 p.2 st.bitDepth st.frames.flatten),
        FS.mk (fs.files ++ [fs.fresh]) (fs.fresh + 1))

/-- Claim C4 fails on the code: a successful ConcatWavBytes call leaves
the temporary file it created in the filesystem (the source closes the
file but never removes it), so the call does have observable state
beyond the returned buffer.  Starting from an empty filesystem, after
concatenating wavA and wavB the temporary file 0 still exists. -/
theorem concatWav_leaves_temp_file :
    (ConcatWavBytesFS [wavA, wavB] (FS.mk [] 0)).2 = FS.mk [0] 1 ∧
    (ConcatWavBytesFS [wavA, wavB] (FS.mk [] 0)).2.files ≠ (FS.mk [] 0).files ∧
    (ConcatWavBytesFS [wavA, wavB] (FS.mk [] 0)).1 = ConcatWavBytes [wavA, wavB] ∧
    (ConcatWavBytesFS [wavA, wavB] (FS.mk [] 0)).1
      = Except.ok (encodeWav 16000 1 16 [5, -3, 7]) :=
  ⟨by decide, by decide, rfl, rfl⟩
